import Mathlib

/-!
Shallow embedding of the Vote-Efficency-ML core
(`src/database/db_manager.py` and `src/sniper.py`).

Conventions of the embedding:
* SQLite REAL / Python float values are modelled as `ℚ` (exact arithmetic);
  `INTEGER` delay columns are modelled as `ℚ` as well, since SQLite stores
  them dynamically and `AVG` over them returns a float.
* The database is an association list keyed by `(author_name, platform)`:
  the `authors` table row exists exactly when the key is present; the
  per-author `author_statistics`, `aggregated_statistics` and
  `voting_delays` rows are the fields of `AuthorData`.  Lists are kept in
  insertion order, which for `voting_delays` coincides with `voted_at`
  order (`CURRENT_TIMESTAMP` at insert time).
* `sqlite3` errors (storage failure) are outside the model: every modelled
  operation is a total function on the database state.  The Python source
  raises no other exception on the modelled paths.
-/

abbrev AuthorKey := String × String

/-- One `author_statistics` row (efficiency, reputation, payout of a
training run).  `training_date` and `model_version` play no role in any
claim and are omitted. -/
structure SnapshotRow where
  efficiency : ℚ
  reputation : ℚ
  payout : ℚ
deriving DecidableEq

/-- One `voting_delays` row.  `voted_at` is represented by the position in
the per-author list (insertion order = timestamp order). -/
structure DelayRow where
  vote_delay : ℚ
  efficiency : ℚ
  post_url : String
deriving DecidableEq

/-- The `aggregated_statistics` row of an author (unique per author).
`best_efficiency` is a nullable column (`Option`), default `0` on insert. -/
structure AggRow where
  avg_efficiency_all_time : ℚ
  reputation_all_time : ℚ
  avg_payout_all_time : ℚ
  total_trainings : Nat
  optimal_delay : ℚ
  best_efficiency : Option ℚ
deriving DecidableEq

/-- All rows of the three per-author tables for one author. -/
structure AuthorData where
  snapshots : List SnapshotRow
  agg : Option AggRow
  delays : List DelayRow
deriving DecidableEq

/-- The whole database: association list over `(author_name, platform)`,
mirroring the `UNIQUE(author_name, platform)` constraint of `authors`. -/
abbrev DB := List (AuthorKey × AuthorData)

/-- An author with an `authors` row but no statistics, aggregate or delay
rows yet (the state right after `INSERT OR IGNORE INTO authors`). -/
def emptyAuthorData : AuthorData := ⟨[], none, []⟩

/-- `SELECT ... WHERE author_name = ? AND platform = ?` (first match). -/
def DB.find : DB → AuthorKey → Option AuthorData
  | [], _ => none
  | (k', d) :: rest, k => if k' = k then some d else DB.find rest k

/-- Replace the rows of author `k` (no-op if `k` is absent). -/
def DB.set : DB → AuthorKey → AuthorData → DB
  | [], _, _ => []
  | (k', d) :: rest, k, nd =>
      if k' = k then (k', nd) :: rest else (k', d) :: DB.set rest k nd

/-- The recomputed `aggregated_statistics` row: the three means are
`AVG(...)` = sum / count over all `author_statistics` rows of the author,
`total_trainings` is `COUNT(*)`; `optimal_delay` and `best_efficiency`
are the carried-over values (column defaults `1440` and `0` on a fresh
insert, preserved by the `ON CONFLICT ... DO UPDATE` otherwise). -/
def aggOfSnaps (snaps : List SnapshotRow) (opt : ℚ) (best : Option ℚ) : AggRow :=
  { avg_efficiency_all_time := (snaps.map SnapshotRow.efficiency).sum / (snaps.length : ℚ)
    reputation_all_time := (snaps.map SnapshotRow.reputation).sum / (snaps.length : ℚ)
    avg_payout_all_time := (snaps.map SnapshotRow.payout).sum / (snaps.length : ℚ)
    total_trainings := snaps.length
    optimal_delay := opt
    best_efficiency := best }

/-- Effect of `update_author_stats` on the rows of the author being
updated: append the snapshot, then recompute the aggregate wholesale from
the full snapshot history. -/
def stepData (d : AuthorData) (c : SnapshotRow) : AuthorData :=
  let snaps := d.snapshots ++ [c]
  { d with
      snapshots := snaps
      agg := some (aggOfSnaps snaps
        (match d.agg with | some a => a.optimal_delay | none => 1440)
        (match d.agg with | some a => a.best_efficiency | none => some 0)) }

/-- `DatabaseManager.update_author_stats`: `INSERT OR IGNORE INTO authors`,
insert the new `author_statistics` row, then
`INSERT INTO aggregated_statistics ... SELECT AVG(...), COUNT(*) ...
ON CONFLICT(author_id) DO UPDATE SET` the three means and the count. -/
def update_author_stats (k : AuthorKey) (e r p : ℚ) (db : DB) : DB :=
  let db1 := if (DB.find db k).isSome then db else db ++ [(k, emptyAuthorData)]
  match DB.find db1 k with
  | none => db1
  | some d => DB.set db1 k (stepData d ⟨e, r, p⟩)

/-- A sequence of `update_author_stats` calls for the same author, applied
in order (`recordSnapshot` calls with efficiencies/reputations/payouts). -/
def applyStats (k : AuthorKey) (calls : List SnapshotRow) (db : DB) : DB :=
  calls.foldl (fun d c => update_author_stats k c.efficiency c.reputation c.payout d) db

/-- SQL condition `best_efficiency < e OR best_efficiency IS NULL` of the
`UPDATE aggregated_statistics` in `update_voting_delay` (a `NULL`
comparison is not true, so the `IS NULL` arm decides the null case). -/
def bestLt (best : Option ℚ) (e : ℚ) : Bool :=
  match best with
  | none => true
  | some b => decide (b < e)

/-- `DatabaseManager.update_voting_delay`: look the author up; if absent,
`cursor.fetchone()` is `None` and the function silently returns with the
database unchanged (no exception of any kind is raised on this path).
Otherwise append the `voting_delays` row and run the conditional
`UPDATE aggregated_statistics SET optimal_delay = ?, best_efficiency = ?
WHERE ... AND (best_efficiency < ? OR best_efficiency IS NULL)`. -/
def update_voting_delay (k : AuthorKey) (d eff : ℚ) (url : String) (db : DB) : DB :=
  match DB.find db k with
  | none => db
  | some data =>
      DB.set db k
        { data with
            delays := data.delays ++ [⟨d, eff, url⟩]
            agg := match data.agg with
              | none => none
              | some a =>
                  if bestLt a.best_efficiency eff then
                    some { a with optimal_delay := d, best_efficiency := some eff }
                  else some a }

/-- Rows passing the subquery filter
`vd.efficiency >= (ag.best_efficiency * 0.8)`.  When `best_efficiency` is
`NULL` the SQL comparison is `NULL`, hence no row qualifies. -/
def qualDelays (delays : List DelayRow) (best : Option ℚ) : List DelayRow :=
  delays.filter fun r =>
    match best with
    | none => false
    | some b => decide (b * (4 / 5) ≤ r.efficiency)

/-- SQL `AVG` over a column: `NULL` on the empty set, sum / count
otherwise. -/
def sqlAvg (xs : List ℚ) : Option ℚ :=
  if xs.isEmpty then none else some (xs.sum / (xs.length : ℚ))

/-- Result dictionary of `get_optimal_delay`. -/
structure OptimalDelayResult where
  author_name : String
  optimal_delay : ℚ
  best_efficiency : Option ℚ
  recent_good_delay : ℚ
deriving DecidableEq

/-- `DatabaseManager.get_optimal_delay`.  The scalar subquery
`SELECT AVG(vd.vote_delay) ... ORDER BY vd.voted_at DESC LIMIT 5` is an
aggregate without `GROUP BY`: it produces a single row over ALL rows
passing the `WHERE` filter, and the `ORDER BY`/`LIMIT` apply to that
single aggregated row (so they have no effect in SQLite).  The Python
fallback `result[3] or result[1]` replaces the average by
`optimal_delay` both when it is `None` (no qualifying row) and when it is
`0` (falsy float). -/
def get_optimal_delay (k : AuthorKey) (db : DB) : Option OptimalDelayResult :=
  match DB.find db k with
  | none => none
  | some data =>
      match data.agg with
      | none => none
      | some a =>
          let qual := qualDelays data.delays a.best_efficiency
          some
            { author_name := k.1
              optimal_delay := a.optimal_delay
              best_efficiency := a.best_efficiency
              recent_good_delay :=
                match sqlAvg (qual.map DelayRow.vote_delay) with
                | none => a.optimal_delay
                | some v => if v = 0 then a.optimal_delay else v }

/-- Modelled from the spec (refinement comparison for the recommended
delay): the mean `delay` over the MOST RECENT 5 qualifying
DelayObservations, ordered by timestamp descending — i.e. the last 5
elements of the qualifying list in insertion order.  `none` when no
observation qualifies. -/
def specRecentGood5 (delays : List DelayRow) (best : Option ℚ) : Option ℚ :=
  sqlAvg (((qualDelays delays best).reverse.take 5).map DelayRow.vote_delay)

/-- Result dictionary of `get_author_stats` (the `JOIN` of `authors` and
`aggregated_statistics`; `None` when either row is missing). -/
structure AuthorStatsResult where
  avg_efficiency : ℚ
  reputation : ℚ
  avg_payout : ℚ
  total_trainings : Nat
deriving DecidableEq

/-- `DatabaseManager.get_author_stats`. -/
def get_author_stats (k : AuthorKey) (db : DB) : Option AuthorStatsResult :=
  match DB.find db k with
  | none => none
  | some data =>
      match data.agg with
      | none => none
      | some a =>
          some ⟨a.avg_efficiency_all_time, a.reputation_all_time,
                a.avg_payout_all_time, a.total_trainings⟩

/-!
Scheduler (`src/sniper.py`).  The external predictor is passed in as two
abstract functions `clf` (XGBClassifier.predict, class label) and `reg`
(XGBRegressor.predict).  Time is measured in minutes on a rational clock.
-/

/-- A candidate as returned by the external client for one monitored
author: its latest post's URL and creation time (minutes). -/
structure PostInfo where
  url : String
  author : String
  createdMin : ℚ
deriving DecidableEq

/-- An entry of the `post_links` list built by `get_posts`. -/
structure ScheduledPost where
  url : String
  author : String
  createdMin : ℚ
  optimal_delay : ℚ
  predicted_efficiency : ℚ
  best_historical_efficiency : Option ℚ
deriving DecidableEq

/-- The per-username body of `VoteSniper.get_posts`: freshness filter and
dedup check (`age_minutes <= max_age_minutes and post['url'] not in
self.published_posts`), then the two database lookups, then the
classifier; on a go decision (`vote_decision == 1`) the regressor runs,
the post is appended to `post_links` and its URL added to
`published_posts`.  Returns (new published set, appended entry if any,
whether the classifier was invoked).  Note that on a no-go decision the
URL is NOT added to `published_posts`: only the go branch adds it. -/
def processCandidate (clf : ℚ → ℚ → ℚ → Nat) (reg : ℚ → ℚ → ℚ → ℚ → ℚ)
    (db : DB) (platform : String) (now maxAge : ℚ)
    (pub : List String) (post : PostInfo) :
    List String × Option ScheduledPost × Bool :=
  if now - post.createdMin ≤ maxAge ∧ post.url ∉ pub then
    match get_author_stats (post.author, platform) db,
          get_optimal_delay (post.author, platform) db with
    | some st, some od =>
        if clf st.avg_efficiency st.reputation st.avg_payout = 1 then
          (pub ++ [post.url],
           some ⟨post.url, post.author, post.createdMin, od.recent_good_delay,
                 reg st.avg_efficiency st.reputation st.avg_payout od.recent_good_delay,
                 od.best_efficiency⟩,
           true)
        else (pub, none, true)
    | _, _ => (pub, none, false)
  else (pub, none, false)

/-- `VoteSniper.get_posts` over the list of monitored users' latest posts:
threads `published_posts`, collects `post_links` in order, and (for the
pipeline-frequency analysis) the URLs on which the classifier ran. -/
def scanPosts (clf : ℚ → ℚ → ℚ → Nat) (reg : ℚ → ℚ → ℚ → ℚ → ℚ)
    (db : DB) (platform : String) (now maxAge : ℚ) :
    List String → List PostInfo → List String × List ScheduledPost × List String
  | pub, [] => (pub, [], [])
  | pub, post :: rest =>
      let r := processCandidate clf reg db platform now maxAge pub post
      let r' := scanPosts clf reg db platform now maxAge r.1 rest
      (r'.1, r.2.1.toList ++ r'.2.1,
       (if r.2.2 then [post.url] else []) ++ r'.2.2)

/-- Repeated discovery cycles of the driver loop (`process_votes`): each
cycle has its own wall-clock time and list of fetched candidates; the
in-memory `published_posts` set persists across cycles (process-local
state). -/
def runCycles (clf : ℚ → ℚ → ℚ → Nat) (reg : ℚ → ℚ → ℚ → ℚ → ℚ)
    (db : DB) (platform : String) (maxAge : ℚ) :
    List String → List (ℚ × List PostInfo) → List String × List ScheduledPost × List String
  | pub, [] => (pub, [], [])
  | pub, (now, cands) :: rest =>
      let r := scanPosts clf reg db platform now maxAge pub cands
      let r' := runCycles clf reg db platform maxAge r.1 rest
      (r'.1, r.2.1 ++ r'.2.1, r.2.2 ++ r'.2.2)

/-- Observable actions of `_process_platform_posts`, in program order. -/
inductive Event where
  | notifyVoteable (url : String)
  | sleep (minutes : ℚ)
  | resolve (url : String)
  | execute (url : String) (weight : ℚ)
  | notifySkip (url : String)
deriving DecidableEq

/-- The per-post body of `VoteSniper._process_platform_posts`, on a
rational clock (minutes): compute `minutes_until_vote`, send the
"Found voteable post" notification, then — only if `voting_power > 89` —
synchronously `time.sleep` until the target time (advancing the clock),
resolve the permalink and invoke the executor with full weight (100);
otherwise send the "VP too low, skipping" notification and make no
executor call.  Returns the clock after the post and the timestamped
events. -/
def processPost (vp now : ℚ) (p : ScheduledPost) : ℚ × List (ℚ × Event) :=
  let target := p.createdMin + p.optimal_delay
  let wait := target - now
  if 89 < vp then
    let now' := if 0 < wait then target else now
    (now',
     [(now, Event.notifyVoteable p.url)] ++
       (if 0 < wait then [(now, Event.sleep wait)] else []) ++
       [(now', Event.resolve p.url), (now', Event.execute p.url 100)])
  else
    (now, [(now, Event.notifyVoteable p.url), (now, Event.notifySkip p.url)])

/-- `VoteSniper._process_platform_posts`: the posts of one platform are
processed strictly sequentially in discovery order; the clock advanced by
one post's blocking sleep is the clock at which the next post's
processing starts. -/
def processPlatformPosts (vp : ℚ) : ℚ → List ScheduledPost → ℚ × List (ℚ × Event)
  | now, [] => (now, [])
  | now, p :: rest =>
      let r := processPost vp now p
      let r' := processPlatformPosts vp r.1 rest
      (r'.1, r.2 ++ r'.2)

/-!
Concrete instances used by the closed counterexample and witness
theorems below.
-/

/-- A classifier that always answers class `0` (no-go). -/
def clf0 : ℚ → ℚ → ℚ → Nat := fun _ _ _ => 0

/-- An arbitrary regressor (its value is irrelevant on no-go paths). -/
def reg0 : ℚ → ℚ → ℚ → ℚ → ℚ := fun _ _ _ _ => 0

/-- A database in which author `("alice", "STEEM")` has one snapshot and
its aggregate row (so both scheduler lookups succeed) and no delay
observations. -/
def exDBStats : DB :=
  [(("alice", "STEEM"), ⟨[⟨10, 20, 30⟩], some ⟨10, 20, 30, 1, 1440, some 0⟩, []⟩)]

/-- A database in which author `("alice", "STEEM")` has 6 delay
observations, all with efficiency `10` (every one qualifies against
`best_efficiency = 10`, threshold `8`), with delays
`[100, 10, 10, 10, 10, 10]` in timestamp order. -/
def exDB6 : DB :=
  [(("alice", "STEEM"),
    ⟨[], some ⟨0, 0, 0, 0, 1440, some 10⟩,
     [⟨100, 10, "p1"⟩, ⟨10, 10, "p2"⟩, ⟨10, 10, "p3"⟩,
      ⟨10, 10, "p4"⟩, ⟨10, 10, "p5"⟩, ⟨10, 10, "p6"⟩]⟩)]

/-- The delay observations of `exDB6` (for the spec-side computation). -/
def exDelays6 : List DelayRow :=
  [⟨100, 10, "p1"⟩, ⟨10, 10, "p2"⟩, ⟨10, 10, "p3"⟩,
   ⟨10, 10, "p4"⟩, ⟨10, 10, "p5"⟩, ⟨10, 10, "p6"⟩]

/-- A database where alice's only delay observation does not qualify
(efficiency `5 < 0.8 * 10`). -/
def exDBNoQual : DB :=
  [(("alice", "STEEM"),
    ⟨[], some ⟨0, 0, 0, 0, 1440, some 10⟩, [⟨60, 5, "p1"⟩]⟩)]

/-- A database where alice's qualifying delay observations all have
delay `0`. -/
def exDBZero : DB :=
  [(("alice", "STEEM"),
    ⟨[], some ⟨0, 0, 0, 0, 1440, some 10⟩, [⟨0, 10, "p1"⟩, ⟨0, 9, "p2"⟩]⟩)]

/-- A database where alice's aggregate row has `best_efficiency = 5`. -/
def exDBBest5 : DB :=
  [(("alice", "STEEM"), ⟨[], some ⟨0, 0, 0, 0, 1440, some 5⟩, []⟩)]

/-- First post of the blocking-wait scenario: created at minute 0,
optimal delay 10 minutes (so its target execution time is minute 10). -/
def exPostA : ScheduledPost := ⟨"u1", "alice", 0, 10, 5, some 0⟩

/-- Second post of the blocking-wait scenario: created at minute 0 with
optimal delay 0 (its target time is already past at discovery). -/
def exPostB : ScheduledPost := ⟨"u2", "bob", 0, 0, 5, some 0⟩

/-!
Helper lemmas (shared among the claim theorems).
-/

theorem DB.find_set_self (db : DB) (k : AuthorKey) (nd : AuthorData)
    (h : (DB.find db k).isSome) : DB.find (DB.set db k nd) k = some nd := by
  induction db with
  | nil => simp [DB.find] at h
  | cons hd tl ih =>
      obtain ⟨k', d⟩ := hd
      by_cases hk : k' = k
      · simp [DB.set, DB.find, hk]
      · simp [DB.set, DB.find, hk] at h ⊢
        exact ih h

theorem DB.find_append_one (db : DB) (k : AuthorKey) (d : AuthorData)
    (h : DB.find db k = none) : DB.find (db ++ [(k, d)]) k = some d := by
  induction db with
  | nil => simp [DB.find]
  | cons hd tl ih =>
      obtain ⟨k', d'⟩ := hd
      by_cases hk : k' = k
      · simp [DB.find, hk] at h
      · simp [DB.find, hk] at h ⊢
        exact ih h

theorem find_update_author_stats (k : AuthorKey) (e r p : ℚ) (db : DB) :
    DB.find (update_author_stats k e r p db) k =
      some (stepData ((DB.find db k).getD emptyAuthorData) ⟨e, r, p⟩) := by
  unfold update_author_stats
  cases hf : DB.find db k with
  | none =>
      have h1 : DB.find (db ++ [(k, emptyAuthorData)]) k = some emptyAuthorData :=
        DB.find_append_one db k emptyAuthorData hf
      simp only [hf, Option.isSome_none, Bool.false_eq_true, if_false, h1]
      exact DB.find_set_self _ k _ (by simp [h1])
  | some d =>
      simp only [hf, Option.isSome_some, if_true, Option.getD_some]
      exact DB.find_set_self _ k _ (by simp [hf])

theorem find_applyStats_of_found (k : AuthorKey) :
    ∀ (calls : List SnapshotRow) (db : DB) (d : AuthorData),
      DB.find db k = some d →
      DB.find (applyStats k calls db) k = some (calls.foldl stepData d) := by
  intro calls
  induction calls with
  | nil => intro db d h; simpa [applyStats] using h
  | cons c rest ih =>
      intro db d h
      have h1 : DB.find (update_author_stats k c.efficiency c.reputation c.payout db) k =
          some (stepData d c) := by
        have := find_update_author_stats k c.efficiency c.reputation c.payout db
        rw [h] at this
        simpa using this
      have h2 := ih (update_author_stats k c.efficiency c.reputation c.payout db)
        (stepData d c) h1
      simpa [applyStats, List.foldl] using h2

theorem foldl_stepData_snapshots (calls : List SnapshotRow) :
    ∀ d : AuthorData, (calls.foldl stepData d).snapshots = d.snapshots ++ calls := by
  induction calls with
  | nil => intro d; simp
  | cons c rest ih =>
      intro d
      simp only [List.foldl_cons, ih (stepData d c)]
      simp [stepData]

theorem foldl_stepData_agg (calls : List SnapshotRow) (hne : calls ≠ []) :
    ∀ d : AuthorData, ∃ opt best,
      (calls.foldl stepData d).agg =
        some (aggOfSnaps (calls.foldl stepData d).snapshots opt best) := by
  induction calls with
  | nil => exact absurd rfl hne
  | cons c rest ih =>
      intro d
      by_cases hr : rest = []
      · subst hr
        refine ⟨(match d.agg with | some a => a.optimal_delay | none => 1440),
                (match d.agg with | some a => a.best_efficiency | none => some 0), ?_⟩
        simp [stepData]
      · obtain ⟨opt, best, hab⟩ := ih hr (stepData d c)
        exact ⟨opt, best, by simpa using hab⟩

/-- Claim C1: for every author and every sequence of `update_author_stats`
calls with snapshot values `c1..cN` (`N ≥ 1`, the author fresh before the
first call), after each call the author's `aggregated_statistics` row has
`avg_efficiency_all_time` equal to the unweighted arithmetic mean of the
efficiencies so far and `total_trainings` equal to the number of calls so
far, and the same holds for the reputation and payout means — recomputed
from the full snapshot history. -/
theorem C1_aggregate_means (name platform : String) (calls : List SnapshotRow)
    (j : Nat) (hj : j < calls.length) (db0 : DB)
    (h0 : DB.find db0 (name, platform) = none) :
    ∃ data a,
      DB.find (applyStats (name, platform) (calls.take (j + 1)) db0)
          (name, platform) = some data ∧
      data.agg = some a ∧
      a.avg_efficiency_all_time =
        ((calls.take (j + 1)).map SnapshotRow.efficiency).sum / ((j + 1 : Nat) : ℚ) ∧
      a.reputation_all_time =
        ((calls.take (j + 1)).map SnapshotRow.reputation).sum / ((j + 1 : Nat) : ℚ) ∧
      a.avg_payout_all_time =
        ((calls.take (j + 1)).map SnapshotRow.payout).sum / ((j + 1 : Nat) : ℚ) ∧
      a.total_trainings = j + 1 := by
  set k : AuthorKey := (name, platform) with hk
  have hlen : (calls.take (j + 1)).length = j + 1 := by
    rw [List.length_take]
    omega
  have hne : calls.take (j + 1) ≠ [] := by
    intro hcon
    rw [hcon] at hlen
    simp at hlen
  obtain ⟨c, rest, hcr⟩ := List.exists_cons_of_ne_nil hne
  rw [hcr]
  have h1 : DB.find (update_author_stats k c.efficiency c.reputation c.payout db0) k =
      some (stepData emptyAuthorData c) := by
    have h := find_update_author_stats k c.efficiency c.reputation c.payout db0
    rw [h0] at h
    simpa using h
  have h2 := find_applyStats_of_found k rest _ _ h1
  have h3 : applyStats k (c :: rest) db0 =
      applyStats k rest (update_author_stats k c.efficiency c.reputation c.payout db0) := rfl
  have hsnaps : (rest.foldl stepData (stepData emptyAuthorData c)).snapshots = c :: rest := by
    have h4 : rest.foldl stepData (stepData emptyAuthorData c) =
        (c :: rest).foldl stepData emptyAuthorData := rfl
    rw [h4, foldl_stepData_snapshots]
    simp [emptyAuthorData]
  obtain ⟨opt, best, hagg⟩ :=
    foldl_stepData_agg (c :: rest) (List.cons_ne_nil c rest) emptyAuthorData
  have h5 : (c :: rest).foldl stepData emptyAuthorData =
      rest.foldl stepData (stepData emptyAuthorData c) := rfl
  rw [h5] at hagg
  refine ⟨rest.foldl stepData (stepData emptyAuthorData c),
    aggOfSnaps (c :: rest) opt best, ?_, ?_, ?_, ?_, ?_, ?_⟩
  · rw [h3]; exact h2
  · rw [hagg, hsnaps]
  · rw [aggOfSnaps]
    rw [← hcr, hlen]
  · rw [aggOfSnaps]
    rw [← hcr, hlen]
  · rw [aggOfSnaps]
    rw [← hcr, hlen]
  · rw [aggOfSnaps]
    rw [← hcr, hlen]

/-- Witness for C1 (spec end-to-end scenario A): three snapshots with
efficiencies `[10, 20, 30]` (reputations `[1, 3, 5]`, payouts `[2, 4, 6]`)
give `avg_efficiency_all_time = 20` and `total_trainings = 3`. -/
theorem C1_aggregate_means_witness :
    ∃ data a,
      DB.find (applyStats ("alice", "STEEM")
          (([⟨10, 1, 2⟩, ⟨20, 3, 4⟩, ⟨30, 5, 6⟩] : List SnapshotRow).take 3) [])
          ("alice", "STEEM") = some data ∧
      data.agg = some a ∧
      a.avg_efficiency_all_time = 20 ∧
      a.reputation_all_time = 3 ∧
      a.avg_payout_all_time = 4 ∧
      a.total_trainings = 3 := by
  obtain ⟨data, a, h1, h2, h3, h4, h5, h6⟩ :=
    C1_aggregate_means "alice" "STEEM" [⟨10, 1, 2⟩, ⟨20, 3, 4⟩, ⟨30, 5, 6⟩] 2
      (by decide) [] rfl
  refine ⟨data, a, h1, h2, ?_, ?_, ?_, h6⟩
  · rw [h3]; norm_num [List.take, List.sum_cons]
  · rw [h4]; norm_num [List.take, List.sum_cons]
  · rw [h5]; norm_num [List.take, List.sum_cons]

/-- Claim C4: for every author with an `aggregated_statistics` row, a
`update_voting_delay` call with delay `d` and efficiency `e` appends the
delay observation and sets `(optimal_delay, best_efficiency)` to
`(d, some e)` exactly when `e` is strictly greater than the current
`best_efficiency` (a `NULL` best treated as `−∞`); otherwise — in
particular when `e` equals the current best — the aggregate row is left
unchanged. -/
theorem C4_best_update (db : DB) (k : AuthorKey) (d e : ℚ) (url : String)
    (data : AuthorData) (a : AggRow)
    (h1 : DB.find db k = some data) (h2 : data.agg = some a) :
    ∃ data',
      DB.find (update_voting_delay k d e url db) k = some data' ∧
      data'.delays = data.delays ++ [⟨d, e, url⟩] ∧
      data'.agg = some (if bestLt a.best_efficiency e
        then { a with optimal_delay := d, best_efficiency := some e } else a) ∧
      (bestLt a.best_efficiency e = true ↔
        a.best_efficiency = none ∨ ∃ b, a.best_efficiency = some b ∧ b < e) := by
  have hs : (DB.find db k).isSome := by simp [h1]
  unfold update_voting_delay
  rw [h1]
  refine ⟨_, DB.find_set_self db k _ hs, rfl, ?_, ?_⟩
  · simp only [h2]
    by_cases hb : bestLt a.best_efficiency e
    · simp [hb]
    · simp [hb]
  · cases hbe : a.best_efficiency with
    | none => simp [bestLt]
    | some b => simp [bestLt]

/-- Witness for C4: with current `best_efficiency = 5`, an observation
with efficiency `7 > 5` and delay `30` rewrites the pair to `(30, 7)`. -/
theorem C4_best_update_witness :
    ∃ data',
      DB.find (update_voting_delay ("alice", "STEEM") 30 7 "u" exDBBest5)
          ("alice", "STEEM") = some data' ∧
      data'.delays = ([] : List DelayRow) ++ [⟨30, 7, "u"⟩] ∧
      data'.agg = some (if bestLt (some 5) 7
        then { (⟨0, 0, 0, 0, 1440, some 5⟩ : AggRow) with
                 optimal_delay := 30, best_efficiency := some 7 }
        else ⟨0, 0, 0, 0, 1440, some 5⟩) ∧
      (bestLt (some (5 : ℚ)) 7 = true ↔
        (some (5 : ℚ)) = none ∨ ∃ b, some (5 : ℚ) = some b ∧ b < 7) :=
  C4_best_update exDBBest5 ("alice", "STEEM") 30 7 "u"
    ⟨[], some ⟨0, 0, 0, 0, 1440, some 5⟩, []⟩ ⟨0, 0, 0, 0, 1440, some 5⟩ rfl rfl

/-- Counterexample to claim C3 as stated: with an empty database (so the
author `("alice", "STEEM")` has no `aggregated_statistics` row — indeed no
`authors` row, the only reachable way to lack an aggregate),
`update_voting_delay` does NOT fail with any error: it silently returns
and leaves the database unchanged.  The source contains no `NotFoundError`
at all; the `if result:` guard simply skips the body. -/
theorem C3_counterexample :
    update_voting_delay ("alice", "STEEM") 60 50 "u" [] = ([] : DB) ∧
    DB.find [] ("alice", "STEEM") = none :=
  ⟨rfl, rfl⟩

/-- Claim C3 amended: for every author with no `authors` row (which, in
states reachable through `update_author_stats`, is exactly the authors
with no `aggregated_statistics` row), `update_voting_delay` silently
returns without recording anything and without raising any error: the
database is left completely unchanged.  No `NotFoundError` exists in the
code. -/
theorem C3_silent_return (db : DB) (k : AuthorKey) (d e : ℚ) (url : String)
    (h : DB.find db k = none) :
    update_voting_delay k d e url db = db := by
  unfold update_voting_delay
  rw [h]

/-- Witness for C3 amended: the concrete call of the counterexample. -/
theorem C3_silent_return_witness :
    update_voting_delay ("bob", "HIVE") 60 50 "u" [] = ([] : DB) :=
  C3_silent_return [] ("bob", "HIVE") 60 50 "u" rfl

/-- Counterexample to claim C2 as stated: in `exDB6` all 6 observations
qualify (efficiency `10 ≥ 0.8 * 10`) with delays `[100,10,10,10,10,10]` in
timestamp order.  The mean over the most recent 5 (timestamp descending)
is `10`, but `get_optimal_delay` returns `25 = 150/6`: the `ORDER BY ...
LIMIT 5` of the subquery applies after the `AVG` aggregation and has no
effect, so the code averages over ALL qualifying observations. -/
theorem C2_counterexample :
    (get_optimal_delay ("alice", "STEEM") exDB6).map
        OptimalDelayResult.recent_good_delay = some 25 ∧
    specRecentGood5 exDelays6 (some 10) = some 10 ∧
    (25 : ℚ) ≠ 10 := by
  refine ⟨?_, ?_, by norm_num⟩
  · show (get_optimal_delay ("alice", "STEEM") exDB6).map
        OptimalDelayResult.recent_good_delay = some 25
    simp only [get_optimal_delay, exDB6, DB.find, qualDelays, sqlAvg]
    norm_num [List.filter, specRecentGood5, List.sum_cons]
  · simp only [specRecentGood5, exDelays6, qualDelays, sqlAvg]
    norm_num [List.filter, List.sum_cons]

/-- Claim C2 amended: for every author with an `aggregated_statistics`
row, `recent_good_delay` equals the mean `vote_delay` over ALL
DelayObservations of the author whose efficiency is at least
`0.8 × best_efficiency` (not just the most recent 5 — the subquery's
`ORDER BY`/`LIMIT 5` has no effect on the aggregate), whenever at least
one observation qualifies and that mean is nonzero. -/
theorem C2_mean_all_qualifying (db : DB) (k : AuthorKey)
    (data : AuthorData) (a : AggRow)
    (h1 : DB.find db k = some data) (h2 : data.agg = some a)
    (h3 : qualDelays data.delays a.best_efficiency ≠ [])
    (h4 : ((qualDelays data.delays a.best_efficiency).map DelayRow.vote_delay).sum /
        (((qualDelays data.delays a.best_efficiency).map DelayRow.vote_delay).length : ℚ) ≠ 0) :
    ∃ res, get_optimal_delay k db = some res ∧
      res.recent_good_delay =
        ((qualDelays data.delays a.best_efficiency).map DelayRow.vote_delay).sum /
          (((qualDelays data.delays a.best_efficiency).map DelayRow.vote_delay).length : ℚ) := by
  simp only [get_optimal_delay, h1, h2]
  have hm : (qualDelays data.delays a.best_efficiency).map DelayRow.vote_delay ≠ [] := by
    simpa using h3
  have he : ((qualDelays data.delays a.best_efficiency).map DelayRow.vote_delay).isEmpty
      = false := by
    cases hl : (qualDelays data.delays a.best_efficiency).map DelayRow.vote_delay with
    | nil => exact absurd hl hm
    | cons x xs => rfl
  refine ⟨_, rfl, ?_⟩
  simp only [sqlAvg, he, Bool.false_eq_true, if_false]
  simp only [if_neg h4]

/-- Witness for C2 amended: on `exDB6` the mean over all 6 qualifying
observations is `25`, and that is what the code returns. -/
theorem C2_mean_all_qualifying_witness :
    ∃ res, get_optimal_delay ("alice", "STEEM") exDB6 = some res ∧
      res.recent_good_delay =
        ((qualDelays exDelays6 (some 10)).map DelayRow.vote_delay).sum /
          (((qualDelays exDelays6 (some 10)).map DelayRow.vote_delay).length : ℚ) := by
  have h := C2_mean_all_qualifying exDB6 ("alice", "STEEM")
    ⟨[], some ⟨0, 0, 0, 0, 1440, some 10⟩, exDelays6⟩ ⟨0, 0, 0, 0, 1440, some 10⟩
    rfl rfl (by norm_num [qualDelays, exDelays6, List.filter]; simp)
    (by norm_num [qualDelays, exDelays6, List.filter, List.sum_cons])
  exact h

/-- Claim C8: for every author with an `aggregated_statistics` row, if no
DelayObservation has efficiency at least `0.8 × best_efficiency`, then
`get_optimal_delay` returns `recent_good_delay` equal to the author's
`optimal_delay` (the `AVG` subquery is `NULL`, and `result[3] or
result[1]` falls back). -/
theorem C8_empty_fallback (db : DB) (k : AuthorKey)
    (data : AuthorData) (a : AggRow)
    (h1 : DB.find db k = some data) (h2 : data.agg = some a)
    (h3 : qualDelays data.delays a.best_efficiency = []) :
    ∃ res, get_optimal_delay k db = some res ∧
      res.recent_good_delay = a.optimal_delay := by
  simp only [get_optimal_delay, h1, h2]
  refine ⟨_, rfl, ?_⟩
  simp [h3, sqlAvg]

/-- Witness for C8: the single observation of `exDBNoQual` has efficiency
`5 < 8 = 0.8 × 10`, so nothing qualifies and the result is the stored
`optimal_delay`. -/
theorem C8_empty_fallback_witness :
    ∃ res, get_optimal_delay ("alice", "STEEM") exDBNoQual = some res ∧
      res.recent_good_delay = 1440 :=
  C8_empty_fallback exDBNoQual ("alice", "STEEM")
    ⟨[], some ⟨0, 0, 0, 0, 1440, some 10⟩, [⟨60, 5, "p1"⟩]⟩ ⟨0, 0, 0, 0, 1440, some 10⟩
    rfl rfl (by norm_num [qualDelays, List.filter])

/-- Claim C10 (implicit behaviour of `result[3] or result[1]`): if the
qualifying observations are nonempty but all have `vote_delay = 0`, the
computed mean is `0`, which is falsy in Python, so `get_optimal_delay`
returns `optimal_delay` rather than `0`: a zero-minute recommendation is
never returned. -/
theorem C10_zero_mean_fallback (db : DB) (k : AuthorKey)
    (data : AuthorData) (a : AggRow)
    (h1 : DB.find db k = some data) (h2 : data.agg = some a)
    (h3 : qualDelays data.delays a.best_efficiency ≠ [])
    (h4 : ∀ r ∈ qualDelays data.delays a.best_efficiency, r.vote_delay = 0) :
    ∃ res, get_optimal_delay k db = some res ∧
      res.recent_good_delay = a.optimal_delay := by
  simp only [get_optimal_delay, h1, h2]
  have hsum : ((qualDelays data.delays a.best_efficiency).map DelayRow.vote_delay).sum = 0 := by
    refine List.sum_eq_zero ?_
    intro x hx
    obtain ⟨r, hr, hxr⟩ := List.mem_map.mp hx
    rw [← hxr]
    exact h4 r hr
  have he : ((qualDelays data.delays a.best_efficiency).map DelayRow.vote_delay).isEmpty
      = false := by
    cases hl : (qualDelays data.delays a.best_efficiency).map DelayRow.vote_delay with
    | nil => exact absurd (by simpa using hl) h3
    | cons x xs => rfl
  refine ⟨_, rfl, ?_⟩
  simp only [sqlAvg, he, Bool.false_eq_true, if_false, hsum, zero_div]
  simp

/-- Witness for C10: both observations of `exDBZero` qualify
(efficiencies `10` and `9` against threshold `8`) and both have delay
`0`, so the result falls back to `optimal_delay = 1440`, not `0`. -/
theorem C10_zero_mean_fallback_witness :
    ∃ res, get_optimal_delay ("alice", "STEEM") exDBZero = some res ∧
      res.recent_good_delay = 1440 :=
  C10_zero_mean_fallback exDBZero ("alice", "STEEM")
    ⟨[], some ⟨0, 0, 0, 0, 1440, some 10⟩, [⟨0, 10, "p1"⟩, ⟨0, 9, "p2"⟩]⟩
    ⟨0, 0, 0, 0, 1440, some 10⟩ rfl rfl
    (by norm_num [qualDelays, List.filter]; simp)
    (by norm_num [qualDelays, List.filter, List.forall_mem_cons])

/-- Counterexample to claim C5 as stated: a fresh candidate `"u"` with
author statistics available is classified `0` (no-go) by `clf0`, and the
result shows the published (processed) set is UNCHANGED (`[]`): the code
adds the URL to `published_posts` only inside the `vote_decision == 1`
branch, so a no-go candidate is NOT marked processed (it stays eligible
for re-discovery while fresh).  Nothing is scheduled (`none`), so no
execution, delay observation or voteable-post notification can follow. -/
theorem C5_counterexample :
    processCandidate clf0 reg0 exDBStats "STEEM" 0 5 [] ⟨"u", "alice", 0⟩ =
      ([], none, true) := by
  norm_num [processCandidate, get_author_stats, get_optimal_delay, exDBStats,
    DB.find, clf0, qualDelays, sqlAvg, List.filter]

/-- Claim C5 amended: on a no-go classification the scheduler does NOT
mark the identifier processed — the published set is returned unchanged —
and it schedules nothing (hence performs no execution, records no
DelayObservation and sends no voteable-post notification); the candidate
may be re-evaluated in later cycles while it remains fresh. -/
theorem C5_no_go_unmarked (clf : ℚ → ℚ → ℚ → Nat) (reg : ℚ → ℚ → ℚ → ℚ → ℚ)
    (db : DB) (platform : String) (now maxAge : ℚ) (pub : List String)
    (post : PostInfo) (st : AuthorStatsResult) (od : OptimalDelayResult)
    (hfresh : now - post.createdMin ≤ maxAge) (hnew : post.url ∉ pub)
    (hst : get_author_stats (post.author, platform) db = some st)
    (hod : get_optimal_delay (post.author, platform) db = some od)
    (hclf : clf st.avg_efficiency st.reputation st.avg_payout = 0) :
    processCandidate clf reg db platform now maxAge pub post = (pub, none, true) := by
  unfold processCandidate
  rw [if_pos ⟨hfresh, hnew⟩]
  simp only [hst, hod]
  simp [hclf]

/-- Witness for C5 amended: a concrete no-go candidate leaves the
published set `["w"]` unchanged. -/
theorem C5_no_go_unmarked_witness :
    processCandidate clf0 reg0 exDBStats "STEEM" 2 5 ["w"] ⟨"v", "alice", 1⟩ =
      (["w"], none, true) :=
  C5_no_go_unmarked clf0 reg0 exDBStats "STEEM" 2 5 ["w"] ⟨"v", "alice", 1⟩
    ⟨10, 20, 30, 1⟩ ⟨"alice", 1440, some 0, 1440⟩
    (by norm_num) (by simp) rfl rfl rfl

/-- Counterexample to claim C6 as stated: the same identifier `"u"`, still
fresh in two consecutive discovery cycles and classified no-go (`clf0`),
goes through pipeline step 3 (classification) TWICE within one process
run — the classified-URL trace is `["u", "u"]` — because a no-go candidate
is never added to the processed set.  (Nothing is ever scheduled: the
scheduled list is empty.) -/
theorem C6_counterexample :
    (runCycles clf0 reg0 exDBStats "STEEM" 5 []
        [(0, [⟨"u", "alice", 0⟩]), (1, [⟨"u", "alice", 0⟩])]).2.2 = ["u", "u"] ∧
    (runCycles clf0 reg0 exDBStats "STEEM" 5 []
        [(0, [⟨"u", "alice", 0⟩]), (1, [⟨"u", "alice", 0⟩])]).2.1 = [] := by
  constructor
  · norm_num [runCycles, scanPosts, processCandidate, get_author_stats,
      get_optimal_delay, exDBStats, DB.find, clf0, qualDelays, sqlAvg, List.filter]
  · norm_num [runCycles, scanPosts, processCandidate, get_author_stats,
      get_optimal_delay, exDBStats, DB.find, clf0, qualDelays, sqlAvg, List.filter]

theorem processCandidate_cases (clf : ℚ → ℚ → ℚ → Nat) (reg : ℚ → ℚ → ℚ → ℚ → ℚ)
    (db : DB) (platform : String) (now maxAge : ℚ) (pub : List String)
    (post : PostInfo) :
    ((processCandidate clf reg db platform now maxAge pub post).2.1 = none ∧
      (processCandidate clf reg db platform now maxAge pub post).1 = pub) ∨
    (∃ sp, (processCandidate clf reg db platform now maxAge pub post).2.1 = some sp ∧
      sp.url = post.url ∧ post.url ∉ pub ∧
      (processCandidate clf reg db platform now maxAge pub post).1 = pub ++ [post.url]) := by
  unfold processCandidate
  split
  case isTrue hcond =>
    split
    · split
      · right
        exact ⟨_, rfl, rfl, hcond.2, rfl⟩
      · left
        exact ⟨rfl, rfl⟩
    · left
      exact ⟨rfl, rfl⟩
  case isFalse _ =>
    left
    exact ⟨rfl, rfl⟩

theorem scanPosts_cons (clf : ℚ → ℚ → ℚ → Nat) (reg : ℚ → ℚ → ℚ → ℚ → ℚ)
    (db : DB) (platform : String) (now maxAge : ℚ) (pub : List String)
    (post : PostInfo) (rest : List PostInfo) :
    scanPosts clf reg db platform now maxAge pub (post :: rest) =
      ((scanPosts clf reg db platform now maxAge
          (processCandidate clf reg db platform now maxAge pub post).1 rest).1,
       (processCandidate clf reg db platform now maxAge pub post).2.1.toList ++
         (scanPosts clf reg db platform now maxAge
           (processCandidate clf reg db platform now maxAge pub post).1 rest).2.1,
       (if (processCandidate clf reg db platform now maxAge pub post).2.2
          then [post.url] else []) ++
         (scanPosts clf reg db platform now maxAge
           (processCandidate clf reg db platform now maxAge pub post).1 rest).2.2) := rfl

theorem scanPosts_dedup (clf : ℚ → ℚ → ℚ → Nat) (reg : ℚ → ℚ → ℚ → ℚ → ℚ)
    (db : DB) (platform : String) (now maxAge : ℚ) (u : String) :
    ∀ (cands : List PostInfo) (pub : List String),
      (∀ x, x ∈ pub → x ∈ (scanPosts clf reg db platform now maxAge pub cands).1) ∧
      (u ∈ pub →
        (scanPosts clf reg db platform now maxAge pub cands).2.1.countP
          (fun p => p.url == u) = 0) ∧
      (scanPosts clf reg db platform now maxAge pub cands).2.1.countP
        (fun p => p.url == u) ≤ 1 ∧
      (1 ≤ (scanPosts clf reg db platform now maxAge pub cands).2.1.countP
          (fun p => p.url == u) →
        u ∈ (scanPosts clf reg db platform now maxAge pub cands).1) := by
  intro cands
  induction cands with
  | nil =>
      intro pub
      exact ⟨fun x hx => hx, fun _ => rfl, by simp [scanPosts], by simp [scanPosts]⟩
  | cons post rest ih =>
      intro pub
      rw [scanPosts_cons]
      obtain ⟨iha, ihb, ihc, ihd⟩ :=
        ih (processCandidate clf reg db platform now maxAge pub post).1
      rcases processCandidate_cases clf reg db platform now maxAge pub post with
        ⟨hnone, hpub⟩ | ⟨sp, hsp, hurl, hnotin, hr1⟩
      · have htl : (processCandidate clf reg db platform now maxAge pub post).2.1.toList
            = [] := by rw [hnone]; rfl
        rw [htl, List.nil_append]
        refine ⟨?_, ?_, ihc, ihd⟩
        · intro x hx
          exact iha x (by rw [hpub]; exact hx)
        · intro hu
          exact ihb (by rw [hpub]; exact hu)
      · have htl : (processCandidate clf reg db platform now maxAge pub post).2.1.toList
            = [sp] := by rw [hsp]; rfl
        rw [htl, List.countP_append]
        have hmem : ∀ x, x ∈ pub → x ∈ (processCandidate clf reg db platform now
            maxAge pub post).1 := by
          intro x hx
          rw [hr1]
          exact List.mem_append_left _ hx
        by_cases hu : post.url = u
        · have hq : (List.countP (fun p => p.url == u) [sp]) = 1 := by
            simp [List.countP_cons, hurl, hu]
          have humem : u ∈ (processCandidate clf reg db platform now maxAge pub post).1 := by
            rw [hr1, ← hu]
            exact List.mem_append_right _ (List.mem_singleton_self _)
          have hzero := ihb humem
          refine ⟨fun x hx => iha x (hmem x hx), ?_, ?_, ?_⟩
          · intro hupub
            exact absurd (hu ▸ hupub) hnotin
          · omega
          · intro _
            exact iha u humem
        · have hq : (List.countP (fun p => p.url == u) [sp]) = 0 := by
            simp [List.countP_cons, hurl, hu]
          rw [hq, Nat.zero_add]
          exact ⟨fun x hx => iha x (hmem x hx), fun hupub => ihb (hmem u hupub), ihc, ihd⟩

theorem runCycles_cons (clf : ℚ → ℚ → ℚ → Nat) (reg : ℚ → ℚ → ℚ → ℚ → ℚ)
    (db : DB) (platform : String) (maxAge : ℚ) (pub : List String)
    (now : ℚ) (cands : List PostInfo) (rest : List (ℚ × List PostInfo)) :
    runCycles clf reg db platform maxAge pub ((now, cands) :: rest) =
      ((runCycles clf reg db platform maxAge
          (scanPosts clf reg db platform now maxAge pub cands).1 rest).1,
       (scanPosts clf reg db platform now maxAge pub cands).2.1 ++
         (runCycles clf reg db platform maxAge
           (scanPosts clf reg db platform now maxAge pub cands).1 rest).2.1,
       (scanPosts clf reg db platform now maxAge pub cands).2.2 ++
         (runCycles clf reg db platform maxAge
           (scanPosts clf reg db platform now maxAge pub cands).1 rest).2.2) := rfl

theorem runCycles_dedup (clf : ℚ → ℚ → ℚ → Nat) (reg : ℚ → ℚ → ℚ → ℚ → ℚ)
    (db : DB) (platform : String) (maxAge : ℚ) (u : String) :
    ∀ (cycles : List (ℚ × List PostInfo)) (pub : List String),
      (∀ x, x ∈ pub → x ∈ (runCycles clf reg db platform maxAge pub cycles).1) ∧
      (u ∈ pub →
        (runCycles clf reg db platform maxAge pub cycles).2.1.countP
          (fun p => p.url == u) = 0) ∧
      (runCycles clf reg db platform maxAge pub cycles).2.1.countP
        (fun p => p.url == u) ≤ 1 ∧
      (1 ≤ (runCycles clf reg db platform maxAge pub cycles).2.1.countP
          (fun p => p.url == u) →
        u ∈ (runCycles clf reg db platform maxAge pub cycles).1) := by
  intro cycles
  induction cycles with
  | nil =>
      intro pub
      exact ⟨fun x hx => hx, fun _ => rfl, by simp [runCycles], by simp [runCycles]⟩
  | cons cyc rest ih =>
      intro pub
      obtain ⟨now, cands⟩ := cyc
      rw [runCycles_cons]
      obtain ⟨sca, scb, scc, scd⟩ :=
        scanPosts_dedup clf reg db platform now maxAge u cands pub
      obtain ⟨iha, ihb, ihc, ihd⟩ :=
        ih (scanPosts clf reg db platform now maxAge pub cands).1
      rw [List.countP_append]
      by_cases hc : 1 ≤ (scanPosts clf reg db platform now maxAge pub cands).2.1.countP
          (fun p => p.url == u)
      · have humem := scd hc
        have hzero := ihb humem
        refine ⟨fun x hx => iha x (sca x hx), ?_, by omega, fun _ => iha u humem⟩
        · intro hupub
          have := scb hupub
          omega
      · have hzero : (scanPosts clf reg db platform now maxAge pub cands).2.1.countP
            (fun p => p.url == u) = 0 := by omega
        rw [hzero, Nat.zero_add]
        exact ⟨fun x hx => iha x (sca x hx), fun hupub => ihb (sca u hupub), ihc, ihd⟩

/-- Claim C6 amended: for every content identifier, the go-path of the
scheduler pipeline (steps 4–8: efficiency estimation, marking, scheduling
and delayed execution) runs at most once within one process lifetime,
across any number of discovery cycles: the in-memory processed-set
prevents any second scheduling of the same URL.  (Step 3, classification
alone, CAN recur for a no-go candidate while it stays fresh — see the
counterexample.) -/
theorem C6_schedule_at_most_once (clf : ℚ → ℚ → ℚ → Nat) (reg : ℚ → ℚ → ℚ → ℚ → ℚ)
    (db : DB) (platform : String) (maxAge : ℚ)
    (cycles : List (ℚ × List PostInfo)) (pub0 : List String) (u : String) :
    (runCycles clf reg db platform maxAge pub0 cycles).2.1.countP
      (fun p => p.url == u) ≤ 1 :=
  (runCycles_dedup clf reg db platform maxAge u cycles pub0).2.2.1

/-- Claim C7: for every candidate reaching its target execution time, if
the curator's voting power exceeds the `89` threshold the permalink is
resolved and the executor invoked with full weight (`100`) and no skip
notification is sent; otherwise no executor call or permalink resolution
happens, the skip notification is sent after the voteable-post message,
and no error is raised (`processPost` is total). -/
theorem C7_resource_gate (vp now : ℚ) (p : ScheduledPost) :
    (89 < vp →
      Event.resolve p.url ∈ (processPost vp now p).2.map Prod.snd ∧
      Event.execute p.url 100 ∈ (processPost vp now p).2.map Prod.snd ∧
      ∀ u, Event.notifySkip u ∉ (processPost vp now p).2.map Prod.snd) ∧
    (vp ≤ 89 →
      (processPost vp now p).2.map Prod.snd =
        [Event.notifyVoteable p.url, Event.notifySkip p.url] ∧
      (∀ u w, Event.execute u w ∉ (processPost vp now p).2.map Prod.snd) ∧
      (∀ u, Event.resolve u ∉ (processPost vp now p).2.map Prod.snd)) := by
  constructor
  · intro h
    unfold processPost
    rw [if_pos h]
    by_cases hw : 0 < p.createdMin + p.optimal_delay - now
    · simp [hw]
    · simp [hw]
  · intro h
    unfold processPost
    rw [if_neg (not_lt.mpr h)]
    simp

/-- Witness for C7 (spec end-to-end scenario E): at voting power `70`
with threshold `89`, the outcome is SKIPPED — the only events are the
voteable-post message and the skip notification, and no executor call
occurs. -/
theorem C7_resource_gate_witness :
    (processPost 70 0 ⟨"u", "alice", 0, 10, 5, some 0⟩).2.map Prod.snd =
      [Event.notifyVoteable "u", Event.notifySkip "u"] ∧
    ∀ u w, Event.execute u w ∉
      (processPost 70 0 ⟨"u", "alice", 0, 10, 5, some 0⟩).2.map Prod.snd := by
  have h := (C7_resource_gate 70 0 ⟨"u", "alice", 0, 10, 5, some 0⟩).2 (by norm_num)
  exact ⟨h.1, h.2.1⟩

/-- Claim C9 evaluated at the failing input: two candidates are in one
batch and the curator's voting power (`95`) passes the gate; the first
candidate's target time is 10 minutes ahead, the second's is already
past.  In the code the wait is a synchronous `time.sleep` inside the
per-candidate loop of `_process_platform_posts`, so EVERY event of the
second candidate — even its initial notification — is stamped at minute
`10`, after the first candidate's entire wait: the whole driver loop is
stalled, no discovery or processing of other candidates can happen during
the wait, contradicting the spec's requirement that waiting for one
candidate must not block the rest. -/
theorem C9_blocking_wait :
    processPlatformPosts 95 0 [exPostA, exPostB] =
      (10, [(0, Event.notifyVoteable "u1"), (0, Event.sleep 10),
            (10, Event.resolve "u1"), (10, Event.execute "u1" 100),
            (10, Event.notifyVoteable "u2"),
            (10, Event.resolve "u2"), (10, Event.execute "u2" 100)]) := by
  norm_num [processPlatformPosts, processPost, exPostA, exPostB]
